import Mathlib

/-!
Shallow embedding of the Vacation Balance Planner (app.js).

Calendar dates are embedded as integers counting days since the Unix epoch
(1970-01-01), matching the JavaScript representation of date-only UTC
`Date` values: for such values `getTime` is exactly `epochDay * MS_PER_DAY`,
so `addDays` is integer addition, `daysBetween` is exact integer
subtraction, and `<`, `<=` on `Date` objects are integer comparisons.
Finite JavaScript numbers are embedded as rationals for hour quantities and
as integers for whole-day quantities; `NaN` (the result of `Number(...)` on
non-numeric input) is a separate constructor, and the `x || d` falsy-default
idiom is modelled by `jsOrQ` / `jsOrZ`.
-/

/-- Day number (days since 1970-01-01, proleptic Gregorian) of the civil
date `y-m-d`; standard era-based conversion, used to write concrete dates
and to model `Date.UTC`. -/
def daysFromCivil (y m d : Int) : Int :=
  let y2 := if m ≤ 2 then y - 1 else y
  let era := Int.fdiv y2 400
  let yoe := y2 - era * 400
  let mp := Int.emod (m + 9) 12
  let doy := Int.fdiv (153 * mp + 2) 5 + d - 1
  let doe := yoe * 365 + Int.fdiv yoe 4 - Int.fdiv yoe 100 + doy
  era * 146097 + doe - 719468

/-- Abbreviation for concrete calendar dates in statements. -/
def civil (y m d : Int) : Int := daysFromCivil y m d

/-- `addDays` from app.js: `new Date(d.getTime() + n * MS_PER_DAY)`. -/
def addDays (d n : Int) : Int := d + n

/-- `daysBetween` from app.js: for date-only values the millisecond
difference is an exact multiple of `MS_PER_DAY`, so `Math.floor` of the
quotient is the exact signed day difference. -/
def daysBetween (a b : Int) : Int := b - a

/-- `getUTCDay`: day of week (0 = Sunday) of an epoch day; epoch day 0
(1970-01-01) was a Thursday (= 4). -/
def getUTCDay (d : Int) : Int := Int.emod (d + 4) 7

/-- `isWeekday` from app.js: Monday through Friday. -/
def isWeekday (d : Int) : Bool := getUTCDay d != 0 && getUTCDay d != 6

/-- `weekdaysBetweenInclusive` from app.js: `0` when `to < from`, otherwise
the loop `for (d = from; d <= to; d = addDays(d, 1)) if (isWeekday(d)) days++`. -/
def weekdaysBetweenInclusive (fromD toD : Int) : Nat :=
  if toD < fromD then 0
  else (List.range (toD - fromD + 1).toNat).countP fun i => isWeekday (addDays fromD (i : Int))

/-- `isBusinessDay` from the holiday revision of app.js: false on Saturday
and Sunday, otherwise true iff the date is not in the holiday set. -/
def isBusinessDay (d : Int) (holidays : List Int) : Bool :=
  isWeekday d && !(holidays.contains d)

/-- `businessDaysBetweenInclusive` from the holiday revision of app.js:
`0` when `to < from`, otherwise counts the business days of `[from, to]`. -/
def businessDaysBetweenInclusive (fromD toD : Int) (holidays : List Int) : Nat :=
  if toD < fromD then 0
  else (List.range (toD - fromD + 1).toNat).countP fun i =>
    isBusinessDay (addDays fromD (i : Int)) holidays

/-- `countPaydays` from app.js. -/
def countPaydays (firstPayday targetDate freqDays : Int) : Int :=
  if targetDate < firstPayday then 0
  else Int.fdiv (daysBetween firstPayday targetDate) freqDays + 1

/-- `nextPaydayOnOrAfter` from app.js. `Math.ceil` of the JavaScript double
quotient is the rational ceiling; the source never divides by zero on the
paths the spec covers (for `freqDays = 0` the JavaScript quotient is
`Infinity` and the surrounding payday loop diverges). -/
def nextPaydayOnOrAfter (date firstPayday freqDays : Int) : Int :=
  if date ≤ firstPayday then firstPayday
  else addDays firstPayday
    (⌈((daysBetween firstPayday date : Int) : ℚ) / (freqDays : ℚ)⌉ * freqDays)

/-- The `while (pay <= end) { out.push(pay); pay = addDays(pay, freqDays); }`
loop of `getPaydaysBetween`. The JavaScript loop terminates exactly when
`freqDays > 0` (or when it never runs); the `0 < freqDays` guard makes the
embedding total, returning `[]` where the source would diverge. -/
def paydaysLoop (pay endD freqDays : Int) : List Int :=
  if pay ≤ endD ∧ 0 < freqDays then pay :: paydaysLoop (addDays pay freqDays) endD freqDays
  else []
termination_by (endD + 1 - pay).toNat
decreasing_by simp [addDays]; omega

/-- `getPaydaysBetween` from app.js. -/
def getPaydaysBetween (startDate endDate firstPayday freqDays : Int) : List Int :=
  paydaysLoop (nextPaydayOnOrAfter startDate firstPayday freqDays) endDate freqDays

/-- A JavaScript numeric field as seen through `Number(...)`: a finite
value or `NaN` (non-numeric input, including a missing field). -/
inductive JsNum where
  | nan : JsNum
  | num : ℚ → JsNum
deriving DecidableEq

/-- A JavaScript numeric field holding a whole number of days. -/
inductive JsIntNum where
  | nan : JsIntNum
  | num : Int → JsIntNum
deriving DecidableEq

/-- `Number(v) || d`: `NaN` and `0` are falsy and yield the default. -/
def jsOrQ (v : JsNum) (d : ℚ) : ℚ :=
  match v with
  | .nan => d
  | .num q => if q = 0 then d else q

/-- `Number(v) || d` for whole-day fields. -/
def jsOrZ (v : JsIntNum) (d : Int) : Int :=
  match v with
  | .nan => d
  | .num n => if n = 0 then d else n

/-- A stored PTO range `{from, to, hours, note}`; the bounds are parsed
date-only values (`from` is reserved in Lean, hence the prefixed names).
The cached `hours` and `note` fields play no role in any balance query. -/
structure PtoRange where
  rFrom : Int
  rTo : Int
deriving DecidableEq

/-- A stored credit entry `{date, hours, note}`. -/
structure CreditEntry where
  date : Int
  hours : JsNum
deriving DecidableEq

/-- The configuration/ledger snapshot consumed by the core calculations;
`firstPayday` is the parsed date-only value of the stored string. -/
structure AppState where
  startBalance : JsNum
  accrualPerPeriod : JsNum
  firstPayday : Int
  payFrequencyDays : JsIntNum
  ptoRanges : List PtoRange
  credits : List CreditEntry

/-- `ptoHoursUpTo` from app.js: the loop over `state.ptoRanges`, skipping
ranges with `from > target` and capping `to` at the target date. -/
def ptoHoursUpTo (s : AppState) (target : Int) : Nat :=
  s.ptoRanges.foldl
    (fun hours r =>
      if target < r.rFrom then hours
      else hours +
        weekdaysBetweenInclusive r.rFrom (if r.rTo ≤ target then r.rTo else target) * 8)
    0

/-- The `ptoRanges` loop of `totalPtoHoursUpTo` from the holiday revision,
with the holiday set (the active holiday policy) passed explicitly. -/
def ptoRangeHoursUpTo (ranges : List PtoRange) (holidays : List Int) (target : Int) : Nat :=
  ranges.foldl
    (fun hours r =>
      if target < r.rFrom then hours
      else hours +
        businessDaysBetweenInclusive r.rFrom (if r.rTo ≤ target then r.rTo else target)
          holidays * 8)
    0

/-- `creditHoursUpTo` from app.js: `hours += Math.max(0, Number(c.hours) || 0)`
for every credit with `date <= target`. -/
def creditHoursUpTo (s : AppState) (target : Int) : ℚ :=
  s.credits.foldl
    (fun hours c => if c.date ≤ target then hours + max 0 (jsOrQ c.hours 0) else hours) 0

/-- `getBalanceOn` from app.js. -/
def getBalanceOn (s : AppState) (target : Int) : ℚ :=
  let accrual := jsOrQ s.accrualPerPeriod 0
  let freq := jsOrZ s.payFrequencyDays 14
  let bal0 := jsOrQ s.startBalance 0
  let bal1 :=
    if s.firstPayday ≤ target
    then bal0 + (countPaydays s.firstPayday target freq : ℚ) * accrual
    else bal0
  bal1 - (ptoHoursUpTo s target : ℚ) + creditHoursUpTo s target

/-- One point of a forecast series: `{date, y}`. -/
structure SeriesPoint where
  date : Int
  y : ℚ
deriving DecidableEq

/-- `forecastSeries` from app.js: `for (i = 0; i <= days; i++)` pushes
`{date: addDays(startDate, i), y: getBalanceOn(ymd(d))}`. -/
def forecastSeries (s : AppState) (startDate : Int) (days : Nat) : List SeriesPoint :=
  (List.range (days + 1)).map fun (i : Nat) =>
    ⟨addDays startDate (i : Int), getBalanceOn s (addDays startDate (i : Int))⟩

/-- A JavaScript `Date` value: either the Invalid Date (internal time `NaN`)
or a date-only value. -/
inductive JsDate where
  | invalid : JsDate
  | valid : Int → JsDate
deriving DecidableEq

/-- An input to `toDateOnlyUTC`: `null`/`undefined` (or any other falsy
input such as the empty string), a string, or a `Date` instance. -/
inductive DateInput where
  | nullIn : DateInput
  | strIn : String → DateInput
  | dateIn : JsDate → DateInput

/-- `v.split("-")`: splits a character sequence at every `-`, keeping empty
pieces, exactly as the JavaScript `String.prototype.split` does. -/
def splitOnDash : List Char → List (List Char)
  | [] => [[]]
  | c :: rest =>
    match splitOnDash rest with
    | [] => []
    | p :: ps => if c = '-' then [] :: p :: ps else (c :: p) :: ps

/-- `Number(s)` for one dash-separated piece of a date string, restricted to
the fragment such pieces use: the empty string is `0`, a string of decimal
digits is its value, and anything else is `NaN` (`none`). -/
def jsNumber (cs : List Char) : Option Int :=
  if cs = [] then some 0
  else if cs.all Char.isDigit then
    some ((cs.foldl (fun acc c => 10 * acc + (c.toNat - 48)) 0 : Nat) : Int)
  else none

/-- `Date.UTC(y, monthIndex, day)` for finite arguments: two-digit years map
to 19xx, and the month index rolls over into the year. -/
def dateUTC (y mIdx day : Int) : Int :=
  let y2 := if 0 ≤ y ∧ y ≤ 99 then y + 1900 else y
  daysFromCivil (y2 + Int.fdiv mIdx 12) (Int.emod mIdx 12 + 1) 1 + (day - 1)

/-- `toDateOnlyUTC` from app.js. `none` is the JavaScript `null` return; a
string input is split on `-`, its first three pieces go through `Number`,
and `Date.UTC` with any `NaN` argument yields the Invalid Date. -/
def toDateOnlyUTC (v : DateInput) : Option JsDate :=
  match v with
  | .nullIn => none
  | .strIn s =>
    if s = "" then none
    else
      let parts := (splitOnDash s.data).map jsNumber
      match parts.getD 0 none, parts.getD 1 none, parts.getD 2 none with
      | some y, some m, some dd => some (.valid (dateUTC y (m - 1) dd))
      | _, _, _ => some .invalid
  | .dateIn .invalid => some .invalid
  | .dateIn (.valid d) => some (.valid d)

/-- Scenario A configuration: the `DEFAULTS` of app.js with an empty ledger
(startBalance −15.78, accrual 4.61 per period, first payday 2026-01-08,
14-day period). -/
def scenarioA : AppState :=
  { startBalance := .num (-1578/100), accrualPerPeriod := .num (461/100),
    firstPayday := civil 2026 1 8, payFrequencyDays := .num 14,
    ptoRanges := [], credits := [] }

/-- Scenario E configuration: Scenario A plus a 10-hour credit dated
2026-01-10. -/
def scenarioE : AppState := { scenarioA with credits := [⟨civil 2026 1 10, .num 10⟩] }

/-- A configuration with a negative `payFrequencyDays` (and otherwise
trivial fields chosen to isolate the accrual term). -/
def negFreqState : AppState :=
  { startBalance := .num 0, accrualPerPeriod := .num 1, firstPayday := 0,
    payFrequencyDays := .num (-7), ptoRanges := [], credits := [] }

/-- An inverted PTO range (`to < from`). -/
def invertedRange : PtoRange := ⟨civil 2026 1 9, civil 2026 1 5⟩

/-- Scenario A with a non-numeric (`NaN`) `payFrequencyDays`. -/
def scenarioNanFreq : AppState := { scenarioA with payFrequencyDays := .nan }

/-- Specification-side description of one range's contribution to the leave
deduction: a range counts only when `from ≤ target`, over `[from, min(to, target)]`. -/
def ptoContribution (target : Int) (r : PtoRange) : Nat :=
  if r.rFrom ≤ target then weekdaysBetweenInclusive r.rFrom (min r.rTo target) * 8 else 0

/-- Same as `ptoContribution`, for the holiday-policy revision. -/
def businessContribution (holidays : List Int) (target : Int) (r : PtoRange) : Nat :=
  if r.rFrom ≤ target
  then businessDaysBetweenInclusive r.rFrom (min r.rTo target) holidays * 8 else 0

/-- Specification-side description of one credit entry's contribution: its
hours when they are a positive number, otherwise 0. -/
def creditContribution (c : CreditEntry) : ℚ :=
  match c.hours with
  | .num q => if 0 < q then q else 0
  | .nan => 0

/-! ### Helper lemmas -/

lemma paydaysLoop_unfold (pay endD freq : Int) :
    paydaysLoop pay endD freq =
      if pay ≤ endD ∧ 0 < freq then pay :: paydaysLoop (addDays pay freq) endD freq else [] := by
  rw [paydaysLoop]

lemma paydaysLoop_mem : ∀ (pay endD freq : Int), 0 < freq → ∀ d : Int,
    (d ∈ paydaysLoop pay endD freq ↔ ∃ k : ℕ, d = pay + (k : ℤ) * freq ∧ d ≤ endD) := by
  intro pay endD freq
  induction pay, endD, freq using paydaysLoop.induct with
  | case1 pay endD freq h ih =>
    intro hf d
    rw [paydaysLoop_unfold, if_pos h, List.mem_cons, ih hf d]
    constructor
    · rintro (rfl | ⟨k, hk1, hk2⟩)
      · exact ⟨0, by simp, h.1⟩
      · exact ⟨k + 1, by rw [hk1]; push_cast [addDays]; ring, hk2⟩
    · rintro ⟨k, hk1, hk2⟩
      cases k with
      | zero => left; simpa using hk1
      | succ j => right; exact ⟨j, by rw [hk1]; push_cast [addDays]; ring, hk2⟩
  | case2 pay endD freq h =>
    intro hf d
    rw [paydaysLoop_unfold, if_neg h]
    simp only [List.not_mem_nil, false_iff]
    rintro ⟨k, rfl, hk⟩
    have h1 : (0:ℤ) ≤ (k : ℤ) * freq := mul_nonneg (by positivity) hf.le
    have h2 : ¬ pay ≤ endD := fun hle => h ⟨hle, hf⟩
    omega

lemma paydaysLoop_sorted : ∀ (pay endD freq : Int), 0 < freq →
    List.Sorted (· < ·) (paydaysLoop pay endD freq) := by
  intro pay endD freq
  induction pay, endD, freq using paydaysLoop.induct with
  | case1 pay endD freq h ih =>
    intro hf
    rw [paydaysLoop_unfold, if_pos h, List.sorted_cons]
    refine ⟨fun b hb => ?_, ih hf⟩
    obtain ⟨k, rfl, -⟩ := (paydaysLoop_mem _ _ _ hf b).mp hb
    have h1 : (0:ℤ) ≤ (k : ℤ) * freq := mul_nonneg (by positivity) hf.le
    simp only [addDays]
    omega
  | case2 pay endD freq h =>
    intro hf
    rw [paydaysLoop_unfold, if_neg h]
    exact List.sorted_nil

lemma paydaysLoop_head (pay endD freq : Int) (hf : 0 < freq) :
    (paydaysLoop pay endD freq).head? = if pay ≤ endD then some pay else none := by
  rw [paydaysLoop_unfold]
  by_cases h : pay ≤ endD
  · rw [if_pos ⟨h, hf⟩, if_pos h, List.head?_cons]
  · rw [if_neg (fun hc => h hc.1), if_neg h, List.head?_nil]

lemma start_le_payday_iff (start first freq k : ℤ) (hf : 0 < freq) :
    start ≤ first + k * freq ↔ ⌈((daysBetween first start : ℤ) : ℚ) / (freq : ℚ)⌉ ≤ k := by
  have hfQ : (0:ℚ) < (freq : ℚ) := by exact_mod_cast hf
  rw [Int.ceil_le, div_le_iff₀ hfQ,
    show ((k:ℚ) * (freq:ℚ)) = ((k * freq : ℤ) : ℚ) from by push_cast; ring, Int.cast_le]
  unfold daysBetween
  constructor <;> intro h <;> linarith

lemma nextPayday_grid (start first freq : ℤ) (hf : 0 < freq) (d : ℤ) :
    (∃ j : ℕ, d = nextPaydayOnOrAfter start first freq + (j : ℤ) * freq) ↔
      ((∃ k : ℕ, d = first + (k : ℤ) * freq) ∧ start ≤ d) := by
  unfold nextPaydayOnOrAfter
  by_cases hsf : start ≤ first
  · rw [if_pos hsf]
    constructor
    · rintro ⟨j, rfl⟩
      have hj : (0:ℤ) ≤ (j:ℤ) * freq := mul_nonneg (by positivity) hf.le
      exact ⟨⟨j, rfl⟩, by omega⟩
    · rintro ⟨⟨k, rfl⟩, -⟩
      exact ⟨k, rfl⟩
  · rw [if_neg hsf]
    push_neg at hsf
    set s : ℤ := ⌈((daysBetween first start : ℤ) : ℚ) / (freq : ℚ)⌉ with hs
    have hs1 : 1 ≤ s := by
      have hfQ : (0:ℚ) < (freq : ℚ) := by exact_mod_cast hf
      have hx : (0:ℚ) < ((daysBetween first start : ℤ) : ℚ) / (freq : ℚ) := by
        apply div_pos _ hfQ
        have h0 : (0:ℤ) < daysBetween first start := by unfold daysBetween; omega
        exact_mod_cast h0
      have := Int.ceil_pos.mpr hx
      omega
    constructor
    · rintro ⟨j, rfl⟩
      have hj0 : (0:ℤ) ≤ (j:ℤ) := by positivity
      refine ⟨⟨(s + (j:ℤ)).toNat, ?_⟩, ?_⟩
      · rw [Int.toNat_of_nonneg (by omega)]
        simp only [addDays]
        ring
      · have := (start_le_payday_iff start first freq (s + (j:ℤ)) hf).mpr (by omega)
        simp only [addDays]
        linarith
    · rintro ⟨⟨k, rfl⟩, hstart⟩
      have hks : s ≤ (k:ℤ) := (start_le_payday_iff start first freq k hf).mp hstart
      refine ⟨((k:ℤ) - s).toNat, ?_⟩
      rw [Int.toNat_of_nonneg (by omega)]
      simp only [addDays]
      ring

lemma jsOrQ_num (q : ℚ) : jsOrQ (.num q) 0 = q := by
  by_cases h : q = 0 <;> simp [jsOrQ, h]

lemma jsOrZ_num (n : ℤ) (hn : n ≠ 0) : jsOrZ (.num n) 14 = n := by
  simp [jsOrZ, hn]

lemma sum_map_ite_filter {α M : Type} [AddCommMonoid M] (p : α → Prop) [DecidablePred p]
    (f : α → M) (l : List α) :
    (l.map fun a => if p a then f a else 0).sum = ((l.filter fun a => decide (p a)).map f).sum := by
  induction l with
  | nil => simp
  | cons a l ih => by_cases h : p a <;> simp [h, ih]

lemma ptoFoldl_eq (target : ℤ) (l : List PtoRange) (acc : ℕ) :
    l.foldl (fun hours r =>
        if target < r.rFrom then hours
        else hours +
          weekdaysBetweenInclusive r.rFrom (if r.rTo ≤ target then r.rTo else target) * 8) acc
      = acc + (l.map (ptoContribution target)).sum := by
  induction l generalizing acc with
  | nil => simp
  | cons r l ih =>
    rw [List.foldl_cons, List.map_cons, List.sum_cons, ih]
    by_cases h : target < r.rFrom
    · have hc : ptoContribution target r = 0 := by simp [ptoContribution, not_le.mpr h]
      rw [if_pos h, hc]
      omega
    · have hc : ptoContribution target r =
          weekdaysBetweenInclusive r.rFrom (if r.rTo ≤ target then r.rTo else target) * 8 := by
        rw [ptoContribution, if_pos (not_lt.mp h), min_def]
      rw [if_neg h, hc]
      omega

lemma ptoHoursUpTo_eq_sum (s : AppState) (target : ℤ) :
    ptoHoursUpTo s target = (s.ptoRanges.map (ptoContribution target)).sum := by
  rw [ptoHoursUpTo, ptoFoldl_eq, Nat.zero_add]

lemma businessFoldl_eq (holidays : List ℤ) (target : ℤ) (l : List PtoRange) (acc : ℕ) :
    l.foldl (fun hours r =>
        if target < r.rFrom then hours
        else hours +
          businessDaysBetweenInclusive r.rFrom (if r.rTo ≤ target then r.rTo else target)
            holidays * 8) acc
      = acc + (l.map (businessContribution holidays target)).sum := by
  induction l generalizing acc with
  | nil => simp
  | cons r l ih =>
    rw [List.foldl_cons, List.map_cons, List.sum_cons, ih]
    by_cases h : target < r.rFrom
    · have hc : businessContribution holidays target r = 0 := by
        simp [businessContribution, not_le.mpr h]
      rw [if_pos h, hc]
      omega
    · have hc : businessContribution holidays target r =
          businessDaysBetweenInclusive r.rFrom (if r.rTo ≤ target then r.rTo else target)
            holidays * 8 := by
        rw [businessContribution, if_pos (not_lt.mp h), min_def]
      rw [if_neg h, hc]
      omega

lemma ptoRangeHoursUpTo_eq_sum (ranges : List PtoRange) (holidays : List ℤ) (target : ℤ) :
    ptoRangeHoursUpTo ranges holidays target
      = (ranges.map (businessContribution holidays target)).sum := by
  rw [ptoRangeHoursUpTo, businessFoldl_eq, Nat.zero_add]

lemma creditFoldl_eq (target : ℤ) (l : List CreditEntry) (acc : ℚ) :
    l.foldl (fun hours c =>
        if c.date ≤ target then hours + max 0 (jsOrQ c.hours 0) else hours) acc
      = acc + (l.map fun c => if c.date ≤ target then creditContribution c else 0).sum := by
  induction l generalizing acc with
  | nil => simp
  | cons c l ih =>
    rw [List.foldl_cons, List.map_cons, List.sum_cons, ih]
    have hmax : max 0 (jsOrQ c.hours 0) = creditContribution c := by
      cases hc : c.hours with
      | nan => simp [jsOrQ, creditContribution, hc]
      | num q =>
        simp only [jsOrQ, creditContribution, hc]
        rcases lt_trichotomy q 0 with h | h | h
        · rw [if_neg h.ne, if_neg (not_lt.mpr h.le)]
          exact max_eq_left h.le
        · simp [h]
        · rw [if_neg h.ne', if_pos h]
          exact max_eq_right h.le
    by_cases h : c.date ≤ target
    · rw [if_pos h, if_pos h, hmax]
      ring
    · rw [if_neg h, if_neg h]
      ring

lemma creditHoursUpTo_eq_sum (s : AppState) (target : ℤ) :
    creditHoursUpTo s target
      = ((s.credits.filter fun c => decide (c.date ≤ target)).map creditContribution).sum := by
  rw [creditHoursUpTo, creditFoldl_eq, zero_add]
  exact sum_map_ite_filter _ _ _

/-! ### Claims -/

/-- C1: for every configuration with numeric startBalance, accrual and a
nonzero numeric pay period, and every target date, `getBalanceOn` equals the
start balance, plus `countPaydays × accrualPerPeriod` when the target is on
or after the first payday (and no accrual otherwise), minus the leave-hours
deduction, plus the credit-hours sum. -/
theorem balance_formula :
    ∀ (s : AppState) (b a : ℚ) (f : ℤ) (target : ℤ),
      s.startBalance = JsNum.num b → s.accrualPerPeriod = JsNum.num a →
      s.payFrequencyDays = JsIntNum.num f → f ≠ 0 →
      getBalanceOn s target =
        b + (if s.firstPayday ≤ target
              then (countPaydays s.firstPayday target f : ℚ) * a else 0)
          - (ptoHoursUpTo s target : ℚ) + creditHoursUpTo s target := by
  intro s b a f target hb ha hf hf0
  simp only [getBalanceOn, hb, ha, hf, jsOrQ_num, jsOrZ_num f hf0]
  by_cases h : s.firstPayday ≤ target
  · rw [if_pos h, if_pos h]
  · rw [if_neg h, if_neg h]
    ring

/-- C1 witness: with the Scenario A configuration,
`balanceOn("2026-01-05") = -15.78` (before the first payday). -/
theorem balance_formula_witness :
    getBalanceOn scenarioA (civil 2026 1 5) = -1578/100 := by
  rw [balance_formula scenarioA (-1578/100) (461/100) 14 (civil 2026 1 5) rfl rfl rfl
    (by norm_num)]
  have h8 : civil 2026 1 8 = 20461 := by decide
  have h5 : civil 2026 1 5 = 20458 := by decide
  simp only [scenarioA, ptoHoursUpTo, creditHoursUpTo, List.foldl_nil, h8, h5]
  norm_num

/-- C2: for every ledger and target date, the leave deduction sums, over
exactly the ranges with `from ≤ target`, the business-day count of
`[from, min(to, target)]` times 8 — an in-progress range contributes only
its portion up to the query date. Stated for both the weekends-only
revision (`ptoHoursUpTo`) and the holiday-policy revision
(`ptoRangeHoursUpTo`). -/
theorem leave_deduction_caps_at_query_date :
    (∀ (s : AppState) (target : ℤ),
      ptoHoursUpTo s target =
        ((s.ptoRanges.filter fun r => decide (r.rFrom ≤ target)).map
          fun r => weekdaysBetweenInclusive r.rFrom (min r.rTo target) * 8).sum) ∧
    (∀ (ranges : List PtoRange) (holidays : List ℤ) (target : ℤ),
      ptoRangeHoursUpTo ranges holidays target =
        ((ranges.filter fun r => decide (r.rFrom ≤ target)).map
          fun r => businessDaysBetweenInclusive r.rFrom (min r.rTo target) holidays * 8).sum) := by
  constructor
  · intro s target
    rw [ptoHoursUpTo_eq_sum]
    exact sum_map_ite_filter (fun r : PtoRange => r.rFrom ≤ target) _ _
  · intro ranges holidays target
    rw [ptoRangeHoursUpTo_eq_sum]
    exact sum_map_ite_filter (fun r : PtoRange => r.rFrom ≤ target) _ _

/-- C3: for positive `periodDays`, `countPaydays` returns 0 before the
first payday and `floor(daysBetween / periodDays) + 1` otherwise; in
particular the first payday itself counts as period 1. -/
theorem countPaydays_spec :
    ∀ first target p : ℤ, 0 < p →
      (countPaydays first target p =
        if target < first then 0 else Int.fdiv (daysBetween first target) p + 1) ∧
      countPaydays first first p = 1 := by
  intro first target p _
  refine ⟨rfl, ?_⟩
  rw [countPaydays, if_neg (lt_irrefl first), daysBetween, sub_self, Int.zero_fdiv]
  norm_num

/-- C3 witness: `countPaydays(2026-01-08, 2026-01-08, 14) = 1` (first payday
counts once reached) and `countPaydays(2026-01-08, 2026-01-22, 14) = 2`. -/
theorem countPaydays_spec_witness :
    (0:ℤ) < 14 ∧ countPaydays (civil 2026 1 8) (civil 2026 1 8) 14 = 1 ∧
      countPaydays (civil 2026 1 8) (civil 2026 1 22) 14 = 2 :=
  ⟨by norm_num, (countPaydays_spec (civil 2026 1 8) 0 14 (by norm_num)).2, by decide⟩

/-- C5: every range-based counting function returns 0 on an inverted range
(`to < from`), and a malformed LeaveRange contributes exactly 0 hours to
the leave deduction of every balance query, in both revisions. -/
theorem inverted_range_zero :
    (∀ fromD toD : ℤ, toD < fromD → weekdaysBetweenInclusive fromD toD = 0) ∧
    (∀ (fromD toD : ℤ) (holidays : List ℤ), toD < fromD →
      businessDaysBetweenInclusive fromD toD holidays = 0) ∧
    (∀ (s : AppState) (r : PtoRange) (target : ℤ), r.rTo < r.rFrom →
      ptoHoursUpTo { s with ptoRanges := r :: s.ptoRanges } target = ptoHoursUpTo s target) ∧
    (∀ (ranges : List PtoRange) (r : PtoRange) (holidays : List ℤ) (target : ℤ),
      r.rTo < r.rFrom →
      ptoRangeHoursUpTo (r :: ranges) holidays target
        = ptoRangeHoursUpTo ranges holidays target) := by
  refine ⟨fun f t h => by rw [weekdaysBetweenInclusive, if_pos h],
    fun f t hol h => by rw [businessDaysBetweenInclusive, if_pos h], ?_, ?_⟩
  · intro s r target h
    rw [ptoHoursUpTo_eq_sum, ptoHoursUpTo_eq_sum]
    simp only [List.map_cons, List.sum_cons]
    have hz : ptoContribution target r = 0 := by
      rw [ptoContribution]
      split
      · next h2 =>
        rw [min_eq_left (by omega), weekdaysBetweenInclusive, if_pos h]
      · rfl
    omega
  · intro ranges r holidays target h
    rw [ptoRangeHoursUpTo_eq_sum, ptoRangeHoursUpTo_eq_sum]
    simp only [List.map_cons, List.sum_cons]
    have hz : businessContribution holidays target r = 0 := by
      rw [businessContribution]
      split
      · next h2 =>
        rw [min_eq_left (by omega), businessDaysBetweenInclusive, if_pos h]
      · rfl
    omega

/-- C5 witness: concrete inverted ranges contribute zero everywhere. -/
theorem inverted_range_zero_witness :
    weekdaysBetweenInclusive 5 3 = 0 ∧ businessDaysBetweenInclusive 5 3 [] = 0 ∧
    ptoHoursUpTo { scenarioA with ptoRanges := invertedRange :: scenarioA.ptoRanges } 20470
      = ptoHoursUpTo scenarioA 20470 ∧
    ptoRangeHoursUpTo [invertedRange] [] 20470 = ptoRangeHoursUpTo [] [] 20470 :=
  ⟨inverted_range_zero.1 5 3 (by norm_num),
   inverted_range_zero.2.1 5 3 [] (by norm_num),
   inverted_range_zero.2.2.1 scenarioA invertedRange 20470 (by decide),
   inverted_range_zero.2.2.2 [] invertedRange [] 20470 (by decide)⟩

/-- C6: the credit component sums hours over exactly the entries with
`date ≤ target`, a non-positive or non-numeric entry contributing 0; and a
10-hour credit dated 2026-01-10 contributes 0 at 2026-01-09 and 10 at
2026-01-10 or later (Scenario E). -/
theorem creditHours_spec :
    (∀ (s : AppState) (target : ℤ),
      creditHoursUpTo s target =
        ((s.credits.filter fun c => decide (c.date ≤ target)).map creditContribution).sum) ∧
    creditHoursUpTo scenarioE (civil 2026 1 9) = 0 ∧
    creditHoursUpTo scenarioE (civil 2026 1 10) = 10 ∧
    creditHoursUpTo scenarioE (civil 2026 3 1) = 10 := by
  have h9 : civil 2026 1 9 = 20462 := by decide
  have h10 : civil 2026 1 10 = 20463 := by decide
  have h30 : civil 2026 3 1 = 20513 := by decide
  refine ⟨creditHoursUpTo_eq_sum, ?_, ?_, ?_⟩ <;>
    simp [creditHoursUpTo, scenarioE, scenarioA, jsOrQ, h9, h10, h30]

/-- C10: the leave-hours deduction is always a non-negative integer
multiple of 8, for every ledger (well-formed or inverted ranges) and every
target date. -/
theorem ptoHours_nonneg_multiple_of_eight :
    ∀ (s : AppState) (target : ℤ),
      8 ∣ ptoHoursUpTo s target ∧ 0 ≤ (ptoHoursUpTo s target : ℚ) := by
  intro s target
  refine ⟨?_, by positivity⟩
  rw [ptoHoursUpTo_eq_sum]
  apply List.dvd_sum
  intro x hx
  obtain ⟨r, -, rfl⟩ := List.mem_map.mp hx
  rw [ptoContribution]
  split
  · exact dvd_mul_left 8 _
  · exact dvd_zero 8

/-- C4: for `start ≤ end` and positive `periodDays`, `getPaydaysBetween`
returns exactly the paydays (dates `firstPayday + k × periodDays`, `k ≥ 0`)
in `[start, end]`, strictly increasing, beginning with
`nextPaydayOnOrAfter(start, …)` (empty when that payday is past `end`); and
on Scenario C it yields exactly [2026-01-08, 2026-01-22]. -/
theorem getPaydaysBetween_spec :
    (∀ startD endD first freq : ℤ, startD ≤ endD → 0 < freq →
      List.Sorted (· < ·) (getPaydaysBetween startD endD first freq) ∧
      (∀ d : ℤ, d ∈ getPaydaysBetween startD endD first freq ↔
        (∃ k : ℕ, d = first + (k : ℤ) * freq) ∧ startD ≤ d ∧ d ≤ endD) ∧
      (getPaydaysBetween startD endD first freq).head? =
        (if nextPaydayOnOrAfter startD first freq ≤ endD
          then some (nextPaydayOnOrAfter startD first freq) else none)) ∧
    getPaydaysBetween (civil 2026 1 1) (civil 2026 1 31) (civil 2026 1 8) 14 =
      [civil 2026 1 8, civil 2026 1 22] := by
  constructor
  · intro startD endD first freq _ hf
    refine ⟨paydaysLoop_sorted _ _ _ hf, fun d => ?_, paydaysLoop_head _ _ _ hf⟩
    rw [getPaydaysBetween, paydaysLoop_mem _ _ _ hf d]
    constructor
    · rintro ⟨j, hj, hle⟩
      obtain ⟨hex, hstart⟩ := (nextPayday_grid startD first freq hf d).mp ⟨j, hj⟩
      exact ⟨hex, hstart, hle⟩
    · rintro ⟨hex, hstart, hle⟩
      obtain ⟨j, hj⟩ := (nextPayday_grid startD first freq hf d).mpr ⟨hex, hstart⟩
      exact ⟨j, hj, hle⟩
  · have h1 : civil 2026 1 1 = 20454 := by decide
    have h8 : civil 2026 1 8 = 20461 := by decide
    have h22 : civil 2026 1 22 = 20475 := by decide
    have h31 : civil 2026 1 31 = 20484 := by decide
    have hn : nextPaydayOnOrAfter 20454 20461 14 = 20461 := by
      rw [nextPaydayOnOrAfter, if_pos (by norm_num)]
    rw [h1, h8, h22, h31, getPaydaysBetween, hn]
    simp [paydaysLoop_unfold, addDays]

/-- C4 witness: the Scenario C range is sorted and contains the first
payday 2026-01-08. -/
theorem getPaydaysBetween_spec_witness :
    List.Sorted (· < ·)
      (getPaydaysBetween (civil 2026 1 1) (civil 2026 1 31) (civil 2026 1 8) 14) ∧
    civil 2026 1 8 ∈ getPaydaysBetween (civil 2026 1 1) (civil 2026 1 31) (civil 2026 1 8) 14 := by
  obtain ⟨hs, hmem, -⟩ :=
    getPaydaysBetween_spec.1 (civil 2026 1 1) (civil 2026 1 31) (civil 2026 1 8) 14
      (by decide) (by norm_num)
  exact ⟨hs, (hmem (civil 2026 1 8)).mpr ⟨⟨0, by norm_num⟩, by decide, by decide⟩⟩

/-- C7: the forecast series has length `dayCount + 1`, its i-th entry
carries the date `startDate + i` (dense in calendar days), and each entry's
balance is `getBalanceOn` of that entry's date. -/
theorem forecastSeries_spec :
    ∀ (s : AppState) (startDate : ℤ) (days : ℕ),
      (forecastSeries s startDate days).length = days + 1 ∧
      ∀ i : ℕ, (forecastSeries s startDate days)[i]? =
        if i ≤ days
        then some ⟨addDays startDate (i : ℤ), getBalanceOn s (addDays startDate (i : ℤ))⟩
        else none := by
  intro s startDate days
  refine ⟨by simp [forecastSeries], fun i => ?_⟩
  by_cases hi : i ≤ days
  · rw [if_pos hi, forecastSeries, List.getElem?_map,
      List.getElem?_range (by omega : i < days + 1), Option.map_some']
  · rw [if_neg hi, List.getElem?_eq_none]
    simp only [forecastSeries, List.length_map, List.length_range]
    omega

/-- C8 (amended): when `payFrequencyDays` is non-numeric (including
missing) or zero, `getBalanceOn` computes the same result as with the
fallback period 14; a negative `payFrequencyDays` is NOT substituted (see
the counterexample). -/
theorem payFrequency_fallback :
    ∀ (s : AppState) (target : ℤ),
      s.payFrequencyDays = JsIntNum.nan ∨ s.payFrequencyDays = JsIntNum.num 0 →
      getBalanceOn s target
        = getBalanceOn { s with payFrequencyDays := JsIntNum.num 14 } target := by
  intro s target h
  rcases h with h | h <;>
    simp [getBalanceOn, ptoHoursUpTo, creditHoursUpTo, jsOrZ, h]

/-- C8 witness: a `NaN` pay frequency gives the same balance as 14. -/
theorem payFrequency_fallback_witness :
    getBalanceOn scenarioNanFreq 20461 =
      getBalanceOn { scenarioNanFreq with payFrequencyDays := JsIntNum.num 14 } 20461 :=
  payFrequency_fallback scenarioNanFreq 20461 (Or.inl rfl)

/-- C8 counterexample: with `payFrequencyDays = -7`, `getBalanceOn` does
not equal the result with the period replaced by 14 (the `|| 14` fallback
only catches falsy values, not negative ones). -/
theorem payFrequency_negative_not_clamped :
    getBalanceOn negFreqState 14 ≠
      getBalanceOn { negFreqState with payFrequencyDays := JsIntNum.num 14 } 14 := by
  have ha : Int.fdiv 14 (-7) = -2 := by decide
  have hb : Int.fdiv 14 14 = 1 := by decide
  simp only [getBalanceOn, negFreqState, jsOrQ, jsOrZ, countPaydays, daysBetween,
    ptoHoursUpTo, creditHoursUpTo, List.foldl_nil]
  norm_num [ha, hb]

/-- C9 (amended): `toDateOnlyUTC` returns the null marker for `null` and
for the (falsy) empty string, but an unparseable non-empty string yields
the non-null Invalid Date value rather than the null marker. -/
theorem toDateOnlyUTC_null_and_invalid :
    toDateOnlyUTC DateInput.nullIn = none ∧ toDateOnlyUTC (DateInput.strIn "") = none ∧
    toDateOnlyUTC (DateInput.strIn "garbage") = some JsDate.invalid := by
  refine ⟨rfl, rfl, ?_⟩
  decide

/-- C9 counterexample: on the unparseable string "garbage", `toDateOnlyUTC`
does not return the null/absent marker. -/
theorem toDateOnlyUTC_unparseable_not_null :
    toDateOnlyUTC (DateInput.strIn "garbage") ≠ none := by
  decide
